import Mathlib

/-!
# Verification of the Kitsune RuneScape-style progression engine

Shallow embedding of `kitsune_rs_master_clean.py`: the level curve
(`RSExperienceSystem`), skill XP tracking (`TailProgression`), achievement
checking (`AchievementDiary`), the mood system (`KitsuneMoodSystem`), the
cycle scheduler (`CycleEventHandler`) and the per-message XP classifier
(`RuneScapeKitsuneAI.get_skill_xp_from_message`).

Python floats are modelled as exact rationals (`ℚ`).  The level-curve
increment `math.floor(lvl + 300.0 * 2.0 ** (lvl / 7.0))` is embedded
exactly: since `300·2^(lvl/7) = (300^7·2^lvl)^(1/7)` and `lvl` is an
integer, the floor equals `lvl + ⌊(300^7·2^lvl)^(1/7)⌋`, which is computed
by the integer seventh-root `root7` below (`root7_le` / `root7_lt` prove it
really is the floor of the seventh root).  The double-precision evaluation
in the source agrees with this exact value for every `lvl ∈ [1,99]`, so the
embedding reproduces the literal numeric table the program computes.
-/

/-- Binary search for the integer seventh root.  Invariant: `lo^7 ≤ m < hi^7`. -/
def root7Aux (m : ℕ) : ℕ → ℕ → ℕ → ℕ
  | 0, lo, _ => lo
  | fuel + 1, lo, hi =>
    if hi ≤ lo + 1 then lo
    else
      let mid := (lo + hi) / 2
      if mid ^ 7 ≤ m then root7Aux m fuel mid hi
      else root7Aux m fuel lo mid

/-- Finds the least power `2^k ≥ 2^start` with `m < (2^k)^7`, to seed the search. -/
def root7Hi (m : ℕ) : ℕ → ℕ → ℕ
  | 0, k => 2 ^ k
  | fuel + 1, k => if m < (2 ^ k) ^ 7 then 2 ^ k else root7Hi m fuel (k + 1)

/-- `root7 m = ⌊m^(1/7)⌋`: the greatest `n` with `n^7 ≤ m` (see `root7_le`, `root7_lt`). -/
def root7 (m : ℕ) : ℕ :=
  root7Aux m (m + 2) 0 (root7Hi m (m + 1) 0)

/-- One term of the RS curve accumulation:
`math.floor(lvl + 300.0 * math.pow(2.0, lvl / 7.0))`, computed exactly as
`lvl + ⌊(300^7 · 2^lvl)^(1/7)⌋` (the floor passes over the integer summand `lvl`,
and `300·2^(lvl/7)` is the seventh root of `300^7·2^lvl`). -/
def curveIncrement (lvl : ℕ) : ℕ :=
  lvl + root7 (300 ^ 7 * 2 ^ lvl)

/-- Loop body of `RSExperienceSystem.get_xp_for_level`: iterates over the
remaining levels, accumulating `points` and returning the `output` computed
at the *previous* iteration once `lvl >= level`. -/
def xpForLevelAux (level : ℕ) : List ℕ → ℕ → ℕ → ℕ
  | [], _, _ => 0
  | lvl :: rest, points, output =>
    let points' := points + curveIncrement lvl
    if level ≤ lvl then output
    else xpForLevelAux level rest points' (points' / 4)

/-- `RSExperienceSystem.get_xp_for_level`: total XP needed for a level
(`range(1, level + 1)` is `List.range' 1 level`). -/
def get_xp_for_level (level : ℕ) : ℕ :=
  xpForLevelAux level (List.range' 1 level) 0 0

/-- Loop body of `RSExperienceSystem.get_level_for_xp`: scans levels,
returning the first `lvl` whose derived `output - 1` is `≥ xp`; 99 when the
range is exhausted. -/
def levelForXpAux (xp : ℚ) : List ℕ → ℕ → ℕ
  | [], _ => 99
  | lvl :: rest, points =>
    let points' := points + curveIncrement lvl
    let output := points' / 4
    if (output : ℚ) - 1 ≥ xp then lvl
    else levelForXpAux xp rest points'

/-- `RSExperienceSystem.get_level_for_xp`: level from an XP amount
(`range(1, 100)` is `List.range' 1 99`). -/
def get_level_for_xp (xp : ℚ) : ℕ :=
  levelForXpAux xp (List.range' 1 99) 0

/-- Computation-friendly version of `levelForXpAux` for natural XP amounts:
the comparison `(output : ℚ) - 1 ≥ n` becomes `n + 1 ≤ output`. -/
def levelForXpNatAux (n : ℕ) : List ℕ → ℕ → ℕ
  | [], _ => 99
  | lvl :: rest, points =>
    let points' := points + curveIncrement lvl
    let output := points' / 4
    if n + 1 ≤ output then lvl
    else levelForXpNatAux n rest points'

/-- Computation-friendly version of `get_level_for_xp` on natural XP amounts. -/
def levelForXpNat (n : ℕ) : ℕ :=
  levelForXpNatAux n (List.range' 1 99) 0


/-! ## TailProgression: per-skill XP/level state -/

/-- One skill's stored state: `{"level": ..., "xp": ...}`. -/
structure SkillData where
  level : ℕ
  xp : ℚ
deriving DecidableEq

/-- The level-up event dictionary returned by `TailProgression.add_xp`. -/
structure LevelUpEvent where
  skill : String
  old_level : ℕ
  new_level : ℕ
  xp_gained : ℚ
deriving DecidableEq

/-- `TailProgression.SKILL_NAMES`: the 9 fixed skill identifiers. -/
def SKILL_NAMES : List String :=
  ["Wisdom", "Helpfulness", "Creativity", "Analysis", "Learning",
   "Patience", "Empathy", "Problem-Solving", "Communication"]

/-- `TailProgression` state: the skills dict (association list in insertion
order) and the interaction counter. -/
structure TailProgression where
  skills : List (String × SkillData)
  total_interactions : ℕ
deriving DecidableEq

/-- `TailProgression.__init__`: every skill starts at level 1 with 0 XP. -/
def TailProgression.init : TailProgression :=
  { skills := SKILL_NAMES.map (fun s => (s, ⟨1, 0⟩)), total_interactions := 0 }

/-- `TailProgression.add_xp`: unknown skills are a silent no-op; otherwise add
`amount * multiplier` to the skill's XP, recompute its level, and return a
level-up event exactly when the new level exceeds the old one. -/
def TailProgression.add_xp (p : TailProgression) (skill : String)
    (amount : ℚ) (multiplier : ℚ) : TailProgression × Option LevelUpEvent :=
  match p.skills.lookup skill with
  | none => (p, none)
  | some data =>
    let final_amount := amount * multiplier
    let old_level := data.level
    let new_xp := data.xp + final_amount
    let new_level := get_level_for_xp new_xp
    let p' : TailProgression :=
      { p with skills :=
          p.skills.map (fun kv => if kv.1 = skill then (skill, ⟨new_level, new_xp⟩) else kv) }
    if old_level < new_level then
      (p', some ⟨skill, old_level, new_level, final_amount⟩)
    else
      (p', none)

/-- `TailProgression.get_total_level`: sum of all skill levels. -/
def TailProgression.get_total_level (p : TailProgression) : ℕ :=
  (p.skills.map (fun kv => kv.2.level)).sum

/-- The tail unlock thresholds (`891 = 99 * 9`). -/
def tailThresholds : List ℕ := [9, 50, 100, 200, 350, 500, 650, 800, 891]

/-- The `for threshold in thresholds: if total >= threshold: unlocked += 1 else:
break` loop: number of increments before the scan halts. -/
def unlockedScan : List ℕ → ℕ → ℕ
  | [], _ => 0
  | t :: ts, total => if t ≤ total then 1 + unlockedScan ts total else 0

/-- `TailProgression.get_unlocked_tails` as a function of the total level:
start with 1 tail, scan the thresholds in order, clamp with `min _ 9`. -/
def get_unlocked_tails (total_level : ℕ) : ℕ :=
  min (1 + unlockedScan tailThresholds total_level) 9

/-- `TailProgression.get_unlocked_tails` (the method: applies the scan to the
state's total level). -/
def TailProgression.unlockedTails (p : TailProgression) : ℕ :=
  get_unlocked_tails p.get_total_level

/-! ## AchievementDiary -/

/-- `AchievementDiary` state: the set of completed achievement ids.  (The
`progress` dict in the source is never written or read and is omitted.) -/
structure AchievementDiary where
  completed : Finset String
deriving DecidableEq

/-- One `if ach_id not in self.completed and <condition>:` block of
`check_achievements`: conditionally award and record an achievement. -/
def checkOne (st : Finset String × List String) (c : String × Bool) :
    Finset String × List String :=
  if c.1 ∉ st.1 ∧ c.2 = true then (insert c.1 st.1, st.2 ++ [c.1]) else st

/-- The seven achievement conditions of `check_achievements`, in source
evaluation order, computed from the progression state. -/
def achChecks (p : TailProgression) : List (String × Bool) :=
  [("first_interaction", decide (1 ≤ p.total_interactions)),
   ("helpful_100", decide (100 ≤ p.total_interactions)),
   ("level_10_all", p.skills.all (fun kv => decide (10 ≤ kv.2.level))),
   ("level_50_any", p.skills.any (fun kv => decide (50 ≤ kv.2.level))),
   ("total_level_200", decide (200 ≤ p.get_total_level)),
   ("level_99_any", p.skills.any (fun kv => decide (99 ≤ kv.2.level))),
   ("all_tails", decide (9 ≤ p.unlockedTails))]

/-- `AchievementDiary.check_achievements`: run the seven award blocks in
order, returning the updated diary and the list of newly completed ids. -/
def AchievementDiary.check_achievements (d : AchievementDiary) (p : TailProgression) :
    AchievementDiary × List String :=
  let st := (achChecks p).foldl checkOne (d.completed, [])
  (⟨st.1⟩, st.2)

/-! ## KitsuneMoodSystem -/

/-- `KitsuneMoodSystem.MOODS`: the 7 mood labels. -/
def MOODS : List String :=
  ["curious", "helpful", "playful", "wise", "content", "excited", "focused"]

/-- `KitsuneMoodSystem` state, fields in `__init__` order. -/
structure KitsuneMoodSystem where
  current_mood : String
  mood_duration : ℕ
  interaction_count : ℕ
deriving DecidableEq

/-- `KitsuneMoodSystem.update_mood`.  The `random.choice(self.MOODS)` draw is
modelled by the oracle argument `pick` (the mood that the RNG would return);
it is consulted only in the final `elif` branch. -/
def KitsuneMoodSystem.update_mood (m : KitsuneMoodSystem)
    (interaction_type : String) (pick : String) : KitsuneMoodSystem :=
  let m' := { m with interaction_count := m.interaction_count + 1,
                     mood_duration := m.mood_duration + 1 }
  if interaction_type = "coding" then { m' with current_mood := "focused" }
  else if interaction_type = "question" then { m' with current_mood := "helpful" }
  else if interaction_type = "creative" then { m' with current_mood := "playful" }
  else if 10 < m'.mood_duration then { m' with current_mood := pick, mood_duration := 0 }
  else m'

/-! ## CycleEventHandler -/

/-- One scheduled event.  The Python `owner`/`function` references are
modelled by the opaque callback identifier `id`; invoking the callback is
recorded rather than executed. -/
structure CycleEvent where
  id : ℕ
  cycles : ℕ
  cycles_passed : ℕ
  running : Bool
deriving DecidableEq

/-- `CycleEventHandler` state. -/
structure CycleEventHandler where
  events : List CycleEvent
  cycle_count : ℕ
deriving DecidableEq

/-- `CycleEventHandler.add_event`: appends a fresh running event. -/
def CycleEventHandler.add_event (h : CycleEventHandler) (i cycles : ℕ) :
    CycleEventHandler :=
  { h with events := h.events ++ [⟨i, cycles, 0, true⟩] }

/-- The body of the `for event in self.events[:]` loop for one event.
`raises i = true` means callback `i` raises when invoked (the `except`
branch: the event is kept, marked not running, and `cycles_passed` is not
reset).  Returns the event's fate (`none` = removed) and the invoked
callback ids (the callback runs even when it raises). -/
def processEvent (raises : ℕ → Bool) (e : CycleEvent) : Option CycleEvent × List ℕ :=
  if e.running = false then (none, [])
  else
    let e' := { e with cycles_passed := e.cycles_passed + 1 }
    if e'.cycles ≤ e'.cycles_passed then
      if raises e'.id then (some { e' with running := false }, [e'.id])
      else (some { e' with cycles_passed := 0 }, [e'.id])
    else (some e', [])

/-- `CycleEventHandler.process_cycle`: bump the cycle counter and process every
event in list order (removals and in-place updates on the live list while
iterating a copy amount to a `filterMap`, since processing one event never
touches another).  Also returns the callback invocations of this cycle. -/
def CycleEventHandler.process_cycle (h : CycleEventHandler) (raises : ℕ → Bool) :
    CycleEventHandler × List ℕ :=
  let results := h.events.map (processEvent raises)
  ({ events := results.filterMap Prod.fst, cycle_count := h.cycle_count + 1 },
   (results.map Prod.snd).flatten)

/-- `n` successive `process_cycle` calls (the returned per-cycle invocation
lists are recovered by applying `process_cycle` to the intermediate states). -/
def runCycles (raises : ℕ → Bool) (h : CycleEventHandler) : ℕ → CycleEventHandler
  | 0 => h
  | n + 1 => ((runCycles raises h n).process_cycle raises).1

/-! ## Message XP classifier -/

/-- Python's `str.lower()`: per-character lowercasing of the text. -/
def strLower (s : String) : String := ⟨s.data.map Char.toLower⟩

/-- Python's substring test `needle in haystack`. -/
def containsSub (needle haystack : String) : Prop :=
  needle.toList <:+: haystack.toList

instance (needle haystack : String) : Decidable (containsSub needle haystack) :=
  List.decidableInfix needle.toList haystack.toList

/-- `any(word in text for word in words)`. -/
def anyKeyword (words : List String) (text : String) : Prop :=
  ∃ w ∈ words, containsSub w text

instance (words : List String) (text : String) : Decidable (anyKeyword words text) :=
  List.decidableBEx _ words

/-- One `xp_gains[skill] = value` assignment of `get_skill_xp_from_message`:
guarded by `applies`, writing `value old` where `old` is the skill's current
entry (`xp_gains.get(skill, 0)` — absent keys read as 0). -/
structure XpRule where
  applies : Bool
  skill : String
  value : ℚ → ℚ

/-- Execute one rule against the gains map (modelled as a total function that
is 0 on absent keys). -/
def applyRule (g : String → ℚ) (r : XpRule) : String → ℚ :=
  if r.applies then fun x => if x = r.skill then r.value (g r.skill) else g x else g

/-- The assignment table of `RuneScapeKitsuneAI.get_skill_xp_from_message`,
in source order, against `text_lower = message.lower()`. -/
def xpRules (message : String) : List XpRule :=
  let t := strLower message
  [⟨decide (containsSub "?" message), "Analysis", fun _ => 10⟩,
   ⟨decide (anyKeyword ["analyze", "data", "pattern", "study", "research"] t),
     "Analysis", fun old => old + 15⟩,
   ⟨decide (100 < message.length), "Communication", fun _ => 15⟩,
   ⟨decide (200 < message.length), "Communication", fun _ => 25⟩,
   ⟨decide (anyKeyword ["help", "please", "thanks", "thank you"] t),
     "Helpfulness", fun _ => 20⟩,
   ⟨decide (anyKeyword ["code", "debug", "error", "fix", "solve", "problem"] t),
     "Problem-Solving", fun _ => 25⟩,
   ⟨decide (anyKeyword ["function", "python", "javascript", "html", "css"] t),
     "Problem-Solving", fun old => old + 20⟩,
   ⟨decide (anyKeyword ["create", "story", "poem", "write", "creative", "art"] t),
     "Creativity", fun _ => 30⟩,
   ⟨decide (anyKeyword ["design", "imagine", "invent", "original"] t),
     "Creativity", fun old => old + 15⟩,
   ⟨decide (anyKeyword ["learn", "teach", "explain", "understand", "how"] t),
     "Learning", fun _ => 18⟩,
   ⟨decide (anyKeyword ["why", "what", "when", "where", "tutorial"] t),
     "Learning", fun old => old + 12⟩,
   ⟨decide (300 < message.length), "Patience", fun _ => 10⟩,
   ⟨decide (anyKeyword ["wait", "slowly", "careful", "detail"] t),
     "Patience", fun old => old + 8⟩,
   ⟨decide (anyKeyword ["feel", "emotion", "sad", "happy", "worried"] t),
     "Empathy", fun _ => 22⟩,
   ⟨decide (anyKeyword ["understand", "support", "comfort", "listen"] t),
     "Empathy", fun old => old + 15⟩,
   ⟨true, "Wisdom", fun _ => 5⟩,
   ⟨decide (anyKeyword ["wise", "advice", "guidance", "insight"] t),
     "Wisdom", fun _ => 25⟩]

/-- `RuneScapeKitsuneAI.get_skill_xp_from_message`: run every assignment in
order over the initially empty gains dict. -/
def get_skill_xp_from_message (message : String) : String → ℚ :=
  (xpRules message).foldl applyRule (fun _ => 0)

/-! ## Correctness of the integer seventh root and the ℚ/ℕ bridge -/
theorem root7Aux_spec (m : ℕ) :
    ∀ fuel lo hi, lo ^ 7 ≤ m → m < hi ^ 7 → lo < hi → hi - lo ≤ 2 ^ fuel →
      (root7Aux m fuel lo hi) ^ 7 ≤ m ∧ m < (root7Aux m fuel lo hi + 1) ^ 7 := by
  intro fuel
  induction fuel with
  | zero =>
    intro lo hi hlo hhi hlt hgap
    have : hi = lo + 1 := by omega
    subst this
    simpa [root7Aux] using ⟨hlo, hhi⟩
  | succ fuel ih =>
    intro lo hi hlo hhi hlt hgap
    simp only [root7Aux]
    by_cases hnarrow : hi ≤ lo + 1
    · have : hi = lo + 1 := by omega
      subst this
      simpa [hnarrow] using ⟨hlo, hhi⟩
    · rw [if_neg hnarrow]
      have hmidlt : lo < (lo + hi) / 2 ∧ (lo + hi) / 2 < hi := by omega
      have hpow : (2 : ℕ) ^ (fuel + 1) = 2 ^ fuel * 2 := pow_succ 2 fuel
      by_cases hmid : ((lo + hi) / 2) ^ 7 ≤ m
      · rw [if_pos hmid]
        exact ih ((lo + hi) / 2) hi hmid hhi hmidlt.2 (by omega)
      · rw [if_neg hmid]
        exact ih lo ((lo + hi) / 2) hlo (by omega) hmidlt.1 (by omega)

theorem root7Hi_spec (m : ℕ) :
    ∀ fuel k, m < (2 ^ (k + fuel)) ^ 7 →
      1 ≤ root7Hi m fuel k ∧ m < (root7Hi m fuel k) ^ 7 ∧ root7Hi m fuel k ≤ 2 ^ (k + fuel) := by
  intro fuel
  induction fuel with
  | zero =>
    intro k hk
    simp only [root7Hi]
    exact ⟨Nat.one_le_two_pow, by simpa using hk, by simp⟩
  | succ fuel ih =>
    intro k hk
    simp only [root7Hi]
    by_cases h : m < (2 ^ k) ^ 7
    · rw [if_pos h]
      exact ⟨Nat.one_le_two_pow, h, Nat.pow_le_pow_right (by norm_num) (by omega)⟩
    · rw [if_neg h]
      have := ih (k + 1) (by rw [show k + 1 + fuel = k + (fuel + 1) by omega]; exact hk)
      exact ⟨this.1, this.2.1, le_trans this.2.2 (Nat.pow_le_pow_right (by norm_num) (by omega))⟩

theorem root7_le (m : ℕ) : (root7 m) ^ 7 ≤ m := by
  have hm : m < (2 ^ (0 + (m + 1))) ^ 7 := by
    calc m < 2 ^ m := Nat.lt_two_pow m
    _ ≤ 2 ^ (0 + (m + 1)) := Nat.pow_le_pow_right (by norm_num) (by omega)
    _ ≤ (2 ^ (0 + (m + 1))) ^ 7 := Nat.le_self_pow (by norm_num) _
  have hhi := root7Hi_spec m (m + 1) 0 hm
  have hgap : root7Hi m (m + 1) 0 - 0 ≤ 2 ^ (m + 2) :=
    le_trans (by omega) (le_trans hhi.2.2 (Nat.pow_le_pow_right (by norm_num) (by omega)))
  exact (root7Aux_spec m (m + 2) 0 _ (by simp) hhi.2.1 hhi.1 hgap).1

theorem root7_lt (m : ℕ) : m < (root7 m + 1) ^ 7 := by
  have hm : m < (2 ^ (0 + (m + 1))) ^ 7 := by
    calc m < 2 ^ m := Nat.lt_two_pow m
    _ ≤ 2 ^ (0 + (m + 1)) := Nat.pow_le_pow_right (by norm_num) (by omega)
    _ ≤ (2 ^ (0 + (m + 1))) ^ 7 := Nat.le_self_pow (by norm_num) _
  have hhi := root7Hi_spec m (m + 1) 0 hm
  have hgap : root7Hi m (m + 1) 0 - 0 ≤ 2 ^ (m + 2) :=
    le_trans (by omega) (le_trans hhi.2.2 (Nat.pow_le_pow_right (by norm_num) (by omega)))
  exact (root7Aux_spec m (m + 2) 0 _ (by simp) hhi.2.1 hhi.1 hgap).2


theorem levelForXpAux_natCast (n : ℕ) :
    ∀ (l : List ℕ) (points : ℕ),
      levelForXpAux (n : ℚ) l points = levelForXpNatAux n l points := by
  intro l
  induction l with
  | nil => intro points; rfl
  | cons lvl rest ih =>
    intro points
    rw [levelForXpAux, levelForXpNatAux]
    have hcond : ((((points + curveIncrement lvl) / 4 : ℕ) : ℚ) - 1 ≥ (n : ℚ)) ↔
        (n + 1 ≤ (points + curveIncrement lvl) / 4) := by
      rw [ge_iff_le, le_sub_iff_add_le, ← Nat.cast_one, ← Nat.cast_add, Nat.cast_le]
    by_cases h : n + 1 ≤ (points + curveIncrement lvl) / 4
    · rw [if_pos (hcond.mpr h), if_pos h]
    · rw [if_neg (fun hc => h (hcond.mp hc)), if_neg h, ih]

theorem get_level_for_xp_natCast (n : ℕ) :
    get_level_for_xp (n : ℚ) = levelForXpNat n :=
  levelForXpAux_natCast n (List.range' 1 99) 0

/-! ## Claim theorems -/

set_option maxRecDepth 10000 in
/-- C1: round-trip of the level curve — for every level `L ∈ [1,99]`,
`get_level_for_xp (get_xp_for_level L) = L`, with both functions the literal
one-step-behind implementations. -/
theorem C1_level_curve_round_trip (L : ℕ) (h1 : 1 ≤ L) (h99 : L ≤ 99) :
    get_level_for_xp ((get_xp_for_level L : ℕ) : ℚ) = L := by
  have key : ∀ M ∈ Finset.Icc (1 : ℕ) 99, levelForXpNat (get_xp_for_level M) = M := by decide
  rw [get_level_for_xp_natCast]
  exact key L (Finset.mem_Icc.mpr ⟨h1, h99⟩)

/-- Witness for C1 at `L = 50`. -/
theorem C1_level_curve_round_trip_witness :
    get_level_for_xp ((get_xp_for_level 50 : ℕ) : ℚ) = 50 :=
  C1_level_curve_round_trip 50 (by norm_num) (by norm_num)

/-- Looking up a key that is not among the stored keys yields `none`. -/
theorem lookup_eq_none_of_not_mem (skill : String) :
    ∀ l : List (String × SkillData), skill ∉ l.map Prod.fst → l.lookup skill = none := by
  intro l
  induction l with
  | nil => intro _; rfl
  | cons kv t ih =>
    intro h
    simp only [List.map_cons, List.mem_cons, not_or] at h
    rw [List.lookup_cons]
    simp only [beq_eq_false_iff_ne.mpr h.1]
    exact ih h.2

/-- C3: `add_xp` on a skill name outside the 9 fixed skills is an atomic
no-op — it returns no event and the whole progression state (every skill's
xp and level, the key set, and the interaction counter) is unchanged. -/
theorem C3_unknown_skill_noop (p : TailProgression) (skill : String)
    (amount multiplier : ℚ)
    (hkeys : p.skills.map Prod.fst = SKILL_NAMES) (hskill : skill ∉ SKILL_NAMES) :
    p.add_xp skill amount multiplier = (p, none) := by
  have hnone : p.skills.lookup skill = none :=
    lookup_eq_none_of_not_mem skill p.skills (by rw [hkeys]; exact hskill)
  unfold TailProgression.add_xp
  rw [hnone]

/-- Witness for C3: adding XP to the unknown skill "Agility" leaves the fresh
tracker untouched. -/
theorem C3_unknown_skill_noop_witness :
    TailProgression.init.add_xp "Agility" 5 2 = (TailProgression.init, none) :=
  C3_unknown_skill_noop TailProgression.init "Agility" 5 2 rfl (by decide)

/-- The threshold scan counts the longest all-met prefix. -/
theorem unlockedScan_eq_takeWhile :
    ∀ (ts : List ℕ) (total : ℕ),
      unlockedScan ts total = (ts.takeWhile (fun t => decide (t ≤ total))).length := by
  intro ts total
  induction ts with
  | nil => rfl
  | cons t rest ih =>
    by_cases h : t ≤ total
    · simp only [unlockedScan, if_pos h, List.takeWhile_cons, decide_eq_true h,
        if_true, List.length_cons, ih]
      omega
    · simp [unlockedScan, List.takeWhile_cons, h]

/-- The threshold scan is monotone in the total level. -/
theorem unlockedScan_mono :
    ∀ (ts : List ℕ) (a b : ℕ), a ≤ b → unlockedScan ts a ≤ unlockedScan ts b := by
  intro ts
  induction ts with
  | nil => intro a b _; exact le_rfl
  | cons t rest ih =>
    intro a b hab
    by_cases h : t ≤ a
    · simp only [unlockedScan, if_pos h, if_pos (le_trans h hab)]
      exact Nat.add_le_add_left (ih a b hab) 1
    · simp only [unlockedScan, if_neg h]
      exact Nat.zero_le _

/-- C4: the tail unlock count equals `min 9 (1 + length of the longest
all-met prefix of the thresholds)` (a contiguous-prefix count), is monotone
non-decreasing in the total level, always lies in `[1,9]`, and maps total
level 8 to 1, 9 to 2 and 891 to 9. -/
theorem C4_tail_unlock_count :
    (∀ total, get_unlocked_tails total =
        min 9 (1 + (tailThresholds.takeWhile (fun t => decide (t ≤ total))).length)) ∧
    (∀ a b, a ≤ b → get_unlocked_tails a ≤ get_unlocked_tails b) ∧
    (∀ total, 1 ≤ get_unlocked_tails total ∧ get_unlocked_tails total ≤ 9) ∧
    get_unlocked_tails 8 = 1 ∧ get_unlocked_tails 9 = 2 ∧ get_unlocked_tails 891 = 9 := by
  refine ⟨?_, ?_, ?_, by decide, by decide, by decide⟩
  · intro total
    rw [get_unlocked_tails, unlockedScan_eq_takeWhile, Nat.min_comm]
  · intro a b hab
    have := unlockedScan_mono tailThresholds a b hab
    simp only [get_unlocked_tails]
    omega
  · intro total
    simp only [get_unlocked_tails]
    omega

/-- Witness for C4's monotonicity conjunct at `5 ≤ 100`. -/
theorem C4_tail_unlock_count_witness :
    get_unlocked_tails 5 ≤ get_unlocked_tails 100 :=
  C4_tail_unlock_count.2.1 5 100 (by norm_num)

/-- A list of naturals that are all at least 1 sums to at least its length. -/
theorem length_le_sum : ∀ l : List ℕ, (∀ x ∈ l, 1 ≤ x) → l.length ≤ l.sum := by
  intro l
  induction l with
  | nil => intro _; simp
  | cons x t ih =>
    intro h
    have hx := h x (List.mem_cons_self x t)
    have ht := ih (fun y hy => h y (List.mem_cons_of_mem x hy))
    simp only [List.length_cons, List.sum_cons]
    omega

/-- C10 (implicit): any valid skill state — all 9 fixed skills present, each
at level ≥ 1 — has total level ≥ 9, so the first threshold is always met and
the tail count is at least 2; a count of 1 is unreachable despite the
calculator's nominal base value of 1. -/
theorem C10_two_tails_from_valid_state (p : TailProgression)
    (hkeys : p.skills.map Prod.fst = SKILL_NAMES)
    (hlvl : ∀ kv ∈ p.skills, 1 ≤ kv.2.level) :
    2 ≤ p.unlockedTails := by
  have hlen : p.skills.length = 9 := by
    have h := congrArg List.length hkeys
    simpa using h
  have h9 : 9 ≤ p.get_total_level := by
    unfold TailProgression.get_total_level
    have hle : (p.skills.map (fun kv => kv.2.level)).length ≤
        (p.skills.map (fun kv => kv.2.level)).sum := by
      refine length_le_sum _ ?_
      intro x hx
      obtain ⟨kv, hkv, rfl⟩ := List.mem_map.mp hx
      exact hlvl kv hkv
    simpa [hlen] using hle
  unfold TailProgression.unlockedTails get_unlocked_tails
  have hscan : 1 ≤ unlockedScan tailThresholds p.get_total_level := by
    unfold tailThresholds
    rw [unlockedScan, if_pos h9]
    omega
  omega

/-- Witness for C10 at the fresh session state. -/
theorem C10_two_tails_from_valid_state_witness :
    2 ≤ TailProgression.init.unlockedTails :=
  C10_two_tails_from_valid_state TailProgression.init rfl (by decide)

/-- Updating the entry of a present key: the lookup afterwards returns the
new value (entries before the first occurrence have other keys, so the map
leaves them unchanged). -/
theorem lookup_map_update (skill : String) (d' : SkillData) :
    ∀ l : List (String × SkillData), (l.lookup skill).isSome →
      (l.map (fun kv => if kv.1 = skill then (skill, d') else kv)).lookup skill = some d' := by
  intro l
  induction l with
  | nil => intro h; exact Bool.noConfusion h
  | cons kv t ih =>
    obtain ⟨k, v⟩ := kv
    intro h
    by_cases hk : k = skill
    · subst hk
      have hmap : ((k, v) :: t).map (fun kv => if kv.1 = k then (k, d') else kv) =
          (k, d') :: t.map (fun kv => if kv.1 = k then (k, d') else kv) := by
        simp
      rw [hmap]
      simp [List.lookup]
    · have hne : (skill == k) = false := beq_eq_false_iff_ne.mpr (fun he => hk he.symm)
      have hmap : ((k, v) :: t).map (fun kv => if kv.1 = skill then (skill, d') else kv) =
          (k, v) :: t.map (fun kv => if kv.1 = skill then (skill, d') else kv) := by
        simp [hk]
      have hh : List.lookup skill ((k, v) :: t) = List.lookup skill t := by
        simp [List.lookup, hne]
      have hgoal : List.lookup skill
          ((k, v) :: t.map (fun kv => if kv.1 = skill then (skill, d') else kv)) =
          List.lookup skill (t.map (fun kv => if kv.1 = skill then (skill, d') else kv)) := by
        simp [List.lookup, hne]
      rw [hh] at h
      rw [hmap, hgoal]
      exact ih h

/-- C2: for a recognized skill, `add_xp` adds exactly `amount * multiplier`
to that skill's stored XP, stores `get_level_for_xp` of the new XP as the
level (the level-matches-xp invariant), leaves the interaction counter
alone, and returns a level-up event with exactly the fields
`{skill, old_level, new_level, xp_gained}` iff the new level exceeds the old
one.  On the fresh tracker, 1000 XP to "Wisdom" at multiplier 1 stores level
`get_level_for_xp 1000 = 9` and emits an event with `old_level = 1`. -/
theorem C2_add_xp_known_skill :
    (∀ (p : TailProgression) (skill : String) (data : SkillData) (amount multiplier : ℚ),
      p.skills.lookup skill = some data →
      ((p.add_xp skill amount multiplier).1.skills.lookup skill =
          some ⟨get_level_for_xp (data.xp + amount * multiplier),
                data.xp + amount * multiplier⟩ ∧
        (p.add_xp skill amount multiplier).1.total_interactions = p.total_interactions ∧
        (p.add_xp skill amount multiplier).2 =
          if data.level < get_level_for_xp (data.xp + amount * multiplier) then
            some ⟨skill, data.level, get_level_for_xp (data.xp + amount * multiplier),
                  amount * multiplier⟩
          else none)) ∧
    ((TailProgression.init.add_xp "Wisdom" 1000 1).1.skills.lookup "Wisdom" =
        some ⟨get_level_for_xp ((1000 : ℚ)), (1000 : ℚ)⟩ ∧
      (TailProgression.init.add_xp "Wisdom" 1000 1).2 =
        some ⟨"Wisdom", 1, get_level_for_xp ((1000 : ℚ)), (1000 : ℚ)⟩ ∧
      get_level_for_xp ((1000 : ℚ)) = 9) := by
  have general : ∀ (p : TailProgression) (skill : String) (data : SkillData)
      (amount multiplier : ℚ),
      p.skills.lookup skill = some data →
      ((p.add_xp skill amount multiplier).1.skills.lookup skill =
          some ⟨get_level_for_xp (data.xp + amount * multiplier),
                data.xp + amount * multiplier⟩ ∧
        (p.add_xp skill amount multiplier).1.total_interactions = p.total_interactions ∧
        (p.add_xp skill amount multiplier).2 =
          if data.level < get_level_for_xp (data.xp + amount * multiplier) then
            some ⟨skill, data.level, get_level_for_xp (data.xp + amount * multiplier),
                  amount * multiplier⟩
          else none) := by
    intro p skill data amount multiplier hlk
    have hupd := lookup_map_update skill
      ⟨get_level_for_xp (data.xp + amount * multiplier), data.xp + amount * multiplier⟩
      p.skills (by rw [hlk]; rfl)
    have heq : p.add_xp skill amount multiplier =
        ({ p with skills := p.skills.map (fun kv => if kv.1 = skill then
              (skill, ⟨get_level_for_xp (data.xp + amount * multiplier),
                       data.xp + amount * multiplier⟩) else kv) },
         if data.level < get_level_for_xp (data.xp + amount * multiplier) then
           some ⟨skill, data.level, get_level_for_xp (data.xp + amount * multiplier),
                 amount * multiplier⟩
         else none) := by
      simp only [TailProgression.add_xp, hlk]
      by_cases hlvl : data.level < get_level_for_xp (data.xp + amount * multiplier)
      · simp only [if_pos hlvl]
      · simp only [if_neg hlvl]
    rw [heq]
    exact ⟨hupd, rfl, rfl⟩
  refine ⟨general, ?_⟩
  have hlk : TailProgression.init.skills.lookup "Wisdom" = some ⟨1, 0⟩ := rfl
  have h1000 : (⟨1, 0⟩ : SkillData).xp + (1000 : ℚ) * 1 = (1000 : ℚ) := by norm_num
  have hlevel : get_level_for_xp ((1000 : ℚ)) = 9 := by
    have hcast : ((1000 : ℕ) : ℚ) = (1000 : ℚ) := by norm_num
    rw [← hcast, get_level_for_xp_natCast]
    decide
  obtain ⟨ha, _, hc⟩ := general TailProgression.init "Wisdom" ⟨1, 0⟩ 1000 1 hlk
  rw [h1000] at ha hc
  refine ⟨ha, ?_, hlevel⟩
  rw [hc, if_pos (by rw [hlevel]; norm_num)]
  norm_num

/-- Witness for C2's general conjunct at the fresh tracker and "Wisdom". -/
theorem C2_add_xp_known_skill_witness :
    (TailProgression.init.add_xp "Wisdom" 1000 1).1.skills.lookup "Wisdom" =
      some ⟨get_level_for_xp ((⟨1, 0⟩ : SkillData).xp + 1000 * 1),
            (⟨1, 0⟩ : SkillData).xp + 1000 * 1⟩ :=
  (C2_add_xp_known_skill.1 TailProgression.init "Wisdom" ⟨1, 0⟩ 1000 1 rfl).1

/-- The award blocks only ever add ids that were not yet completed and never
remove any: folding `checkOne` preserves "contains the old set" and "newly
emitted ids avoid the old set". -/
theorem checkOne_foldl_invariant (old : Finset String) :
    ∀ (cs : List (String × Bool)) (st : Finset String × List String),
      old ⊆ st.1 → (∀ x ∈ st.2, x ∉ old) →
      (old ⊆ (cs.foldl checkOne st).1 ∧ ∀ x ∈ (cs.foldl checkOne st).2, x ∉ old) := by
  intro cs
  induction cs with
  | nil => intro st h1 h2; exact ⟨h1, h2⟩
  | cons c rest ih =>
    intro st h1 h2
    rw [List.foldl_cons]
    by_cases hcond : c.1 ∉ st.1 ∧ c.2 = true
    · refine ih (checkOne st c) ?_ ?_
      · simp only [checkOne, if_pos hcond]
        exact h1.trans (Finset.subset_insert _ _)
      · simp only [checkOne, if_pos hcond]
        intro x hx
        rcases List.mem_append.mp hx with hx' | hx'
        · exact h2 x hx'
        · rw [List.mem_singleton.mp hx']
          exact fun hmem => hcond.1 (h1 hmem)
    · refine ih (checkOne st c) ?_ ?_ <;> simp only [checkOne, if_neg hcond]
      · exact h1
      · exact h2

/-- C5: `check_achievements` only grows the completed set, and every newly
returned achievement id was not previously completed (one-shot awards, over
any progression state and hence any sequence of calls). -/
theorem C5_achievements_monotone_one_shot (d : AchievementDiary) (p : TailProgression) :
    d.completed ⊆ (d.check_achievements p).1.completed ∧
    ∀ a ∈ (d.check_achievements p).2, a ∉ d.completed := by
  have h := checkOne_foldl_invariant d.completed (achChecks p) (d.completed, [])
    subset_rfl (by intro x hx; simp at hx)
  constructor
  · simpa only [AchievementDiary.check_achievements] using h.1
  · simpa only [AchievementDiary.check_achievements] using h.2

set_option maxHeartbeats 1000000 in
/-- Witness for C5: a first interaction awards "first_interaction", which was
not previously completed. -/
theorem C5_achievements_monotone_one_shot_witness :
    "first_interaction" ∉ (AchievementDiary.mk ∅).completed :=
  (C5_achievements_monotone_one_shot ⟨∅⟩ ⟨TailProgression.init.skills, 1⟩).2
    "first_interaction"
    (by
      have h : ((AchievementDiary.mk ∅).check_achievements
          ⟨TailProgression.init.skills, 1⟩).2 = ["first_interaction"] := rfl
      rw [h]
      exact List.mem_singleton_self _)

/-- C6: a matched interaction type sets the mood directly to the mapped
label, increments both counters and does not reset the duration counter; the
random-reassignment branch (mood from the oracle `pick`, duration reset to
0) runs only on an unmatched type whose incremented duration counter exceeds
10. -/
theorem C6_mood_update (m : KitsuneMoodSystem) (t pick : String) :
    (m.update_mood "coding" pick =
        ⟨"focused", m.mood_duration + 1, m.interaction_count + 1⟩) ∧
    (m.update_mood "question" pick =
        ⟨"helpful", m.mood_duration + 1, m.interaction_count + 1⟩) ∧
    (m.update_mood "creative" pick =
        ⟨"playful", m.mood_duration + 1, m.interaction_count + 1⟩) ∧
    (t ≠ "coding" → t ≠ "question" → t ≠ "creative" →
      m.update_mood t pick =
        if 10 < m.mood_duration + 1 then ⟨pick, 0, m.interaction_count + 1⟩
        else ⟨m.current_mood, m.mood_duration + 1, m.interaction_count + 1⟩) := by
  refine ⟨by simp [KitsuneMoodSystem.update_mood], by simp [KitsuneMoodSystem.update_mood],
    by simp [KitsuneMoodSystem.update_mood], ?_⟩
  intro h1 h2 h3
  simp only [KitsuneMoodSystem.update_mood, if_neg h1, if_neg h2, if_neg h3]

/-- Witness for C6's unmatched branch: an unmatched call at duration 10
triggers the random reassignment and resets the duration counter. -/
theorem C6_mood_update_witness :
    (⟨"curious", 10, 0⟩ : KitsuneMoodSystem).update_mood "general" "wise" =
      ⟨"wise", 0, 1⟩ := by
  have h := (C6_mood_update ⟨"curious", 10, 0⟩ "general" "wise").2.2.2
    (by decide) (by decide) (by decide)
  rw [h, if_pos (show (10 : ℕ) < 10 + 1 by norm_num)]

/-- Before its tick count is reached, a single pending event just accumulates
elapsed ticks: after `k < N` cycles the elapsed counter is exactly `k`. -/
theorem runCycles_single_pending (r : ℕ → Bool) (i N c : ℕ) :
    ∀ k, k < N →
      runCycles r ⟨[⟨i, N, 0, true⟩], c⟩ k = ⟨[⟨i, N, k, true⟩], c + k⟩ := by
  intro k
  induction k with
  | zero => intro _; rfl
  | succ k ih =>
    intro hk
    rw [runCycles, ih (by omega)]
    simp [CycleEventHandler.process_cycle, processEvent, show ¬(N ≤ k + 1) by omega,
      Nat.add_assoc]

/-- C7: a single running event requiring `N ≥ 1` ticks whose callback does
not raise is not invoked during the first `N - 1` `process_cycle` calls, is
invoked exactly once on the `N`-th, and immediately afterwards its elapsed
counter is 0 again. -/
theorem C7_scheduler_fires_on_nth_tick (r : ℕ → Bool) (i N c : ℕ)
    (hN : 1 ≤ N) (hr : r i = false) :
    (∀ k, k + 1 < N →
      ((runCycles r ⟨[⟨i, N, 0, true⟩], c⟩ k).process_cycle r).2 = []) ∧
    ((runCycles r ⟨[⟨i, N, 0, true⟩], c⟩ (N - 1)).process_cycle r).2 = [i] ∧
    (runCycles r ⟨[⟨i, N, 0, true⟩], c⟩ N).events = [⟨i, N, 0, true⟩] := by
  obtain ⟨M, rfl⟩ : ∃ M, N = M + 1 := ⟨N - 1, by omega⟩
  refine ⟨?_, ?_, ?_⟩
  · intro k hk
    rw [runCycles_single_pending r i (M + 1) c k (by omega)]
    simp [CycleEventHandler.process_cycle, processEvent, show ¬(M + 1 ≤ k + 1) by omega]
  · rw [show M + 1 - 1 = M by omega, runCycles_single_pending r i (M + 1) c M (by omega)]
    simp [CycleEventHandler.process_cycle, processEvent, hr]
  · rw [runCycles, runCycles_single_pending r i (M + 1) c M (by omega)]
    simp [CycleEventHandler.process_cycle, processEvent, hr]

/-- Witness for C7 at the spec scenario `N = 3`: the callback fires on the
third cycle. -/
theorem C7_scheduler_fires_on_nth_tick_witness :
    ((runCycles (fun _ => false) ⟨[⟨0, 3, 0, true⟩], 0⟩ (3 - 1)).process_cycle
        (fun _ => false)).2 = [0] :=
  (C7_scheduler_fires_on_nth_tick (fun _ => false) 0 3 0 (by norm_num) rfl).2.1

/-- A handler with no events stays empty forever (only the cycle counter
advances). -/
theorem runCycles_no_events (r : ℕ → Bool) (c : ℕ) :
    ∀ m, runCycles r ⟨[], c⟩ m = ⟨[], c + m⟩ := by
  intro m
  induction m with
  | zero => rfl
  | succ m ih =>
    rw [runCycles, ih]
    simp [CycleEventHandler.process_cycle, Nat.add_assoc]

/-- C8: if a due event's callback raises, `process_cycle` absorbs the
exception: this cycle still reports the (raising) invocation, the event
stays in the list marked not running, the next cycle removes it without
invoking anything, and no later cycle ever invokes a callback again. -/
theorem C8_raising_callback_disabled (r : ℕ → Bool) (i N k c : ℕ)
    (hr : r i = true) (hfire : N ≤ k + 1) :
    ((⟨[⟨i, N, k, true⟩], c⟩ : CycleEventHandler).process_cycle r).2 = [i] ∧
    ((⟨[⟨i, N, k, true⟩], c⟩ : CycleEventHandler).process_cycle r).1.events =
      [⟨i, N, k + 1, false⟩] ∧
    (((⟨[⟨i, N, k, true⟩], c⟩ : CycleEventHandler).process_cycle r).1.process_cycle
        r).1.events = [] ∧
    (((⟨[⟨i, N, k, true⟩], c⟩ : CycleEventHandler).process_cycle r).1.process_cycle
        r).2 = [] ∧
    ∀ m, ((runCycles r
        (((⟨[⟨i, N, k, true⟩], c⟩ : CycleEventHandler).process_cycle r).1.process_cycle
          r).1 m).process_cycle r).2 = [] := by
  have h1 : (⟨[⟨i, N, k, true⟩], c⟩ : CycleEventHandler).process_cycle r =
      (⟨[⟨i, N, k + 1, false⟩], c + 1⟩, [i]) := by
    simp [CycleEventHandler.process_cycle, processEvent, hfire, hr]
  have h2 : (⟨[⟨i, N, k + 1, false⟩], c + 1⟩ : CycleEventHandler).process_cycle r =
      (⟨[], c + 2⟩, []) := by
    simp [CycleEventHandler.process_cycle, processEvent]
  refine ⟨by rw [h1], by rw [h1], ?_, ?_, ?_⟩
  · simp only [h1]
    rw [h2]
  · simp only [h1]
    rw [h2]
  · intro m
    simp only [h1]
    rw [h2]
    simp only [runCycles_no_events r (c + 2) m]
    simp [CycleEventHandler.process_cycle]

/-- Witness for C8: an immediately due raising callback is reported once and
its event is disabled in place. -/
theorem C8_raising_callback_disabled_witness :
    ((⟨[⟨7, 1, 0, true⟩], 0⟩ : CycleEventHandler).process_cycle (fun _ => true)).2 = [7] :=
  (C8_raising_callback_disabled (fun _ => true) 7 1 0 0 rfl (by norm_num)).1

/-- C9: a message whose lowercased text contains both "debug" and "story"
earns positive XP for Problem-Solving and Creativity in the same call, and
every message whatsoever earns positive baseline Wisdom XP. -/
theorem C9_keyword_xp :
    (∀ message : String,
      containsSub "debug" (strLower message) → containsSub "story" (strLower message) →
      0 < get_skill_xp_from_message message "Problem-Solving" ∧
      0 < get_skill_xp_from_message message "Creativity") ∧
    (∀ message : String, 0 < get_skill_xp_from_message message "Wisdom") := by
  constructor
  · intro message hd hs
    have h6 : decide (anyKeyword ["code", "debug", "error", "fix", "solve", "problem"]
        (strLower message)) = true := decide_eq_true ⟨"debug", by simp, hd⟩
    have h8 : decide (anyKeyword ["create", "story", "poem", "write", "creative", "art"]
        (strLower message)) = true := decide_eq_true ⟨"story", by simp, hs⟩
    constructor
    · simp only [get_skill_xp_from_message, xpRules, List.foldl_cons, List.foldl_nil]
      simp only [applyRule, ite_apply, h6]
      simp
      split <;> norm_num
    · simp only [get_skill_xp_from_message, xpRules, List.foldl_cons, List.foldl_nil]
      simp only [applyRule, ite_apply, h8]
      simp
      split <;> norm_num
  · intro message
    simp only [get_skill_xp_from_message, xpRules, List.foldl_cons, List.foldl_nil]
    simp only [applyRule, ite_apply]
    simp
    split <;> norm_num

/-- Witness for C9 on a concrete message containing both keywords. -/
theorem C9_keyword_xp_witness :
    0 < get_skill_xp_from_message "please debug my story" "Problem-Solving" ∧
    0 < get_skill_xp_from_message "please debug my story" "Creativity" :=
  C9_keyword_xp.1 "please debug my story"
    ⟨"please ".toList, " my story".toList, by decide⟩
    ⟨"please debug my ".toList, [], by decide⟩
